import Mathlib

/-!
Shallow embedding of the `cursed-stats` CSV importer
(`src/importer/src/main.rs`, with the excerpt `src/src/main.rs`).

Modelling conventions:
* Rust `HashMap<String, V>` is modelled as an association list with
  replace-on-insert (`hmInsert`) and first-match lookup (`hmLookup`);
  the keys of any map built by `hmInsert` are unique.  Iteration order of a
  Rust `HashMap` is unspecified; the model fixes insertion order, and every
  order-sensitive statement below is phrased so it does not depend on it.
* Fallible Rust functions returning `anyhow::Result` are modelled with
  `Except String`; file-system reads are passed in as an explicit function
  `String → Except String (List Nat)` (path to byte content).
* Machine integers are modelled with `Nat`/`Int`; two's-complement casts
  (`as u128`) are written explicitly as `% 2 ^ 128`.
* `f64` parsing (`str::parse::<f64>`) is modelled by the grammar of Rust's
  `dec2flt` with exact rational values (rounding to the nearest double is
  not modelled; no claim below depends on rounding).
-/

namespace CursedStats

set_option maxRecDepth 100000

/-- Model of `HashMap::insert`: replace the value when the key is present,
otherwise append the new binding. -/
def hmInsert (m : List (String × α)) (k : String) (v : α) : List (String × α) :=
  match m with
  | [] => [(k, v)]
  | (k', v') :: rest => if k' = k then (k', v) :: rest else (k', v') :: hmInsert rest k v

/-- Model of `HashMap::get`: first binding with the requested key. -/
def hmLookup (m : List (String × α)) (k : String) : Option α :=
  match m with
  | [] => none
  | (k', v') :: rest => if k' = k then some v' else hmLookup rest k

/-- Keys of a modelled map. -/
def hmKeys (m : List (String × α)) : List String := m.map Prod.fst

theorem hmLookup_hmInsert (m : List (String × α)) (k k' : String) (v : α) :
    hmLookup (hmInsert m k v) k' = if k = k' then some v else hmLookup m k' := by
  induction m with
  | nil => simp [hmInsert, hmLookup]
  | cons hd tl ih =>
    obtain ⟨k₀, v₀⟩ := hd
    by_cases h₀ : k₀ = k
    · subst h₀
      by_cases h₁ : k₀ = k'
      · subst h₁; simp [hmInsert, hmLookup]
      · simp [hmInsert, hmLookup, h₁, Ne.symm h₁]
    · by_cases h₁ : k₀ = k'
      · subst h₁
        simp [hmInsert, hmLookup, h₀, Ne.symm h₀]
      · simp [hmInsert, hmLookup, h₀, h₁, ih]

theorem hmKeys_nil : hmKeys ([] : List (String × α)) = [] := rfl

theorem hmKeys_cons (p : String × α) (tl : List (String × α)) :
    hmKeys (p :: tl) = p.1 :: hmKeys tl := rfl

theorem hmKeys_hmInsert_of_mem (m : List (String × α)) (k : String) (v : α)
    (h : k ∈ hmKeys m) : hmKeys (hmInsert m k v) = hmKeys m := by
  induction m with
  | nil => simp [hmKeys_nil] at h
  | cons hd tl ih =>
    obtain ⟨k₀, v₀⟩ := hd
    rw [hmKeys_cons] at h
    by_cases h₀ : k₀ = k
    · subst h₀; simp [hmInsert, hmKeys_cons]
    · rcases List.mem_cons.mp h with h₁ | h₁
      · exact absurd h₁.symm h₀
      · simp [hmInsert, h₀, hmKeys_cons, ih h₁]

theorem hmKeys_hmInsert_of_not_mem (m : List (String × α)) (k : String) (v : α)
    (h : k ∉ hmKeys m) : hmKeys (hmInsert m k v) = hmKeys m ++ [k] := by
  induction m with
  | nil => simp [hmInsert, hmKeys_nil, hmKeys_cons]
  | cons hd tl ih =>
    obtain ⟨k₀, v₀⟩ := hd
    rw [hmKeys_cons] at h
    have h₀ : k₀ ≠ k := fun hk => h (hk ▸ List.mem_cons_self _ _)
    have h₁ : k ∉ hmKeys tl := fun hk => h (List.mem_cons_of_mem _ hk)
    simp [hmInsert, h₀, hmKeys_cons, ih h₁]

theorem hmKeys_hmInsert_nodup (m : List (String × α)) (k : String) (v : α)
    (h : (hmKeys m).Nodup) : (hmKeys (hmInsert m k v)).Nodup := by
  by_cases hk : k ∈ hmKeys m
  · rw [hmKeys_hmInsert_of_mem m k v hk]; exact h
  · rw [hmKeys_hmInsert_of_not_mem m k v hk]
    simpa [List.nodup_append] using ⟨h, hk⟩

/-- The schema-less row representation (`struct DynamicRecord`): one
mandatory timestamp plus a map from column name to raw text value. -/
structure DynamicRecord where
  timestamp : String
  fields : List (String × String)
deriving DecidableEq, Repr

/-- Inner loop of `parse_csv_dynamic`: iterate the cells of one row together
with the aligned headers (a cell with index `i ≥ headers.len()` is ignored);
a column literally named `timestamp` overwrites the timestamp slot, every
other column is inserted into `fields`. -/
def processFields (headers cells : List String) (acc : DynamicRecord) : DynamicRecord :=
  match headers, cells with
  | _, [] => acc
  | [], _ => acc
  | h :: hs, c :: cs =>
    if h = "timestamp" then
      processFields hs cs { acc with timestamp := c }
    else
      processFields hs cs { acc with fields := hmInsert acc.fields h c }

/-- One row of `parse_csv_dynamic`: start from an empty record and process
every cell. -/
def buildRecord (headers cells : List String) : DynamicRecord :=
  processFields headers cells { timestamp := "", fields := [] }

/-- Model of `parse_csv_dynamic` after the header row has been read: each row
of the underlying csv reader either yields its cells or a decode error; the
first row error aborts the whole file (`result?`), and a row whose resolved
timestamp is empty is dropped. -/
def parse_csv_dynamic (headers : List String) :
    List (Except String (List String)) → Except String (List DynamicRecord)
  | [] => .ok []
  | .error e :: _ => .error e
  | .ok cells :: rest =>
    match parse_csv_dynamic headers rest with
    | .error e => .error e
    | .ok records =>
      let record := buildRecord headers cells
      if record.timestamp = "" then .ok records else .ok (record :: records)

/-- Cache entry (`struct FileMetadata`).  `last_processed` is a
`chrono::DateTime<Utc>`, modelled here by its serialized RFC3339 text. -/
structure FileMetadata where
  path : String
  hash : String
  last_processed : String
  records_count : Nat
deriving DecidableEq, Repr

/-- What the scanner does with one discovered `.csv` file. -/
inductive ScanAction where
  | skip
  | enqueue
deriving DecidableEq, Repr

/-- Observable effect of the scanner's per-file body (`main.rs` lines
320-350): the action taken plus the statistics increments. -/
structure ScanStep where
  action : ScanAction
  filesFoundDelta : Nat
  filesSkippedDelta : Nat
deriving DecidableEq, Repr

/-- Model of the scanner stage body for one discovered `.csv` file.
`hashResult` is what `calculate_file_hash` returns for the file when the
scanner recomputes it (`Ok` fingerprint or an I/O error).  Mirrors:
increment `files_found`; if not forcing, look the canonical path up in the
cache, and on `Ok(hash) if hash == metadata.hash` skip (incrementing
`files_skipped`); in every other case enqueue the path. -/
def scannerStep (force : Bool) (cache : List (String × FileMetadata))
    (pathStr : String) (hashResult : Except String String) : ScanStep :=
  if force then ⟨.enqueue, 1, 0⟩
  else
    match hmLookup cache pathStr with
    | some metadata =>
      match hashResult with
      | .ok hash => if hash = metadata.hash then ⟨.skip, 1, 1⟩ else ⟨.enqueue, 1, 0⟩
      | .error _ => ⟨.enqueue, 1, 0⟩
    | none => ⟨.enqueue, 1, 0⟩

/-- Observable effect of the parser stage on one dequeued file path
(`main.rs` lines 269-305): the batches pushed onto the record queue and the
statistics increments. -/
structure ParserStep where
  emitted : List (List DynamicRecord × String × String)
  recordsProcessedDelta : Nat
  filesProcessedDelta : Nat
deriving DecidableEq, Repr

/-- Model of the parser stage body for one file path.  `files_processed` is
incremented unconditionally; then the fingerprint is computed (an error
emits nothing); then the file is decoded by `parse_csv_dynamic` (an error
emits nothing); on success `records_processed` grows by the number of
decoded records and the batch `(records, path, hash)` is sent. -/
def parserStep (pathStr : String) (hashResult : Except String String)
    (headers : List String) (rows : List (Except String (List String))) : ParserStep :=
  match hashResult with
  | .error _ => ⟨[], 0, 1⟩
  | .ok hash =>
    match parse_csv_dynamic headers rows with
    | .ok records => ⟨[(records, pathStr, hash)], records.length, 1⟩
    | .error _ => ⟨[], 0, 1⟩

/-- Value of a successful Rust `str::parse::<f64>()`; finite values are
kept exact as rationals (rounding to a double is not modelled). -/
inductive F64 where
  | finite (q : ℚ)
  | inf (neg : Bool)
  | nan
deriving DecidableEq, Repr

/-- Numeric value of an ASCII digit. -/
def digitVal (c : Char) : Nat := c.toNat - '0'.toNat

/-- Decimal value of a digit list, most significant first. -/
def digitsToNat (ds : List Char) : Nat := ds.foldl (fun a c => a * 10 + digitVal c) 0

/-- Value `mantissa * 10 ^ (exp - fracLen)` of a decimal literal, as an
exact rational (`mkRat` keeps the computation kernel-evaluable). -/
def decimalValue (mantissa fracLen : Nat) (exp : Int) : ℚ :=
  let p := exp - (fracLen : Int)
  if 0 ≤ p then mkRat (mantissa * 10 ^ p.toNat) 1 else mkRat mantissa (10 ^ (-p).toNat)

/-- Exponent digits: at least one digit and nothing after them. -/
def parseExpDigits (neg : Bool) (cs : List Char) : Option Int :=
  let (ds, rest) := cs.span (fun c => c.isDigit)
  if ds = [] ∨ rest ≠ [] then none
  else some (if neg then -(digitsToNat ds : Int) else (digitsToNat ds : Int))

/-- Optional exponent suffix `('e'|'E') sign? digits+` at the end of a float
literal; no suffix means exponent `0`. -/
def parseExpSuffix : List Char → Option Int
  | [] => some 0
  | c :: rest =>
    if c = 'e' ∨ c = 'E' then
      match rest with
      | '+' :: r => parseExpDigits false r
      | '-' :: r => parseExpDigits true r
      | r => parseExpDigits false r
    else none

/-- Unsigned decimal part of Rust's float grammar:
`digits+ ('.' digits*)? exp?` or `'.' digits+ exp?`. -/
def parseNumber (cs : List Char) : Option ℚ :=
  let (ipart, rest) := cs.span (fun c => c.isDigit)
  match rest with
  | '.' :: rest' =>
    let (fpart, rest'') := rest'.span (fun c => c.isDigit)
    if ipart = [] ∧ fpart = [] then none
    else (parseExpSuffix rest'').map
      (fun e => decimalValue (digitsToNat (ipart ++ fpart)) fpart.length e)
  | _ =>
    if ipart = [] then none
    else (parseExpSuffix rest).map (fun e => decimalValue (digitsToNat ipart) 0 e)

/-- Model of `str::parse::<f64>()` (core `dec2flt`): optional sign, then a
case-insensitive special value `inf`/`infinity`/`nan` or a decimal number
with optional exponent; anything else fails. -/
def rustParseF64 (s : String) : Option F64 :=
  match s.data with
  | [] => none
  | cs =>
    let signed : Bool × List Char :=
      match cs with
      | '-' :: r => (true, r)
      | '+' :: r => (false, r)
      | r => (false, r)
    let neg := signed.1
    let body := signed.2
    let lower := body.map Char.toLower
    if lower = "inf".data ∨ lower = "infinity".data then some (.inf neg)
    else if lower = "nan".data then some .nan
    else
      match parseNumber body with
      | some q => some (.finite (if neg then -q else q))
      | none => none

/-- An instant as chrono stores it: floor seconds since the Unix epoch (the
value of `timestamp()`) and subsecond nanoseconds (`timestamp_subsec_nanos`,
up to `1_999_999_999` during a leap second). -/
structure ChronoDateTime where
  epochSec : Int
  nano : Nat
deriving DecidableEq, Repr

def i64Min : Int := -(2 ^ 63)

def i64Max : Int := 2 ^ 63 - 1

/-- chrono `DateTime::timestamp_nanos_opt`:
`timestamp().checked_mul(1_000_000_000)` then
`checked_add(timestamp_subsec_nanos())`, all on `i64`. -/
def timestamp_nanos_opt (dt : ChronoDateTime) : Option Int :=
  let m := dt.epochSec * 1000000000
  if i64Min ≤ m ∧ m ≤ i64Max then
    let v := m + (dt.nano : Int)
    if i64Min ≤ v ∧ v ≤ i64Max then some v else none
  else none

/-- Days from 1970-01-01 in the proleptic Gregorian calendar (Hinnant's
civil-days algorithm), computed over `Nat` on a year already shifted into
nonnegative territory. -/
def daysFromCivilShifted (y m d : Nat) : Int :=
  let y' := if m ≤ 2 then y - 1 else y
  let era := y' / 400
  let yoe := y' % 400
  let mp := (m + 9) % 12
  let doy := (153 * mp + 2) / 5 + (d - 1)
  let doe := yoe * 365 + yoe / 4 - yoe / 100 + doy
  (era : Int) * 146097 + (doe : Int) - 719468

/-- Days from the epoch for a year in 0..9999 (the only years the RFC3339
parser produces): shift by +400 years and subtract one 400-year era. -/
def daysFromCivil (year m d : Nat) : Int :=
  daysFromCivilShifted (year + 400) m d - 146097

def isLeapYear (y : Nat) : Bool :=
  y % 4 = 0 && (y % 100 != 0 || y % 400 = 0)

def daysInMonth (y m : Nat) : Nat :=
  if m = 2 then (if isLeapYear y then 29 else 28)
  else if m = 4 ∨ m = 6 ∨ m = 9 ∨ m = 11 then 30 else 31

/-- chrono `Parsed::to_datetime` validation and conversion: field ranges are
checked (second 60 is the leap-second representation: stored second 59 with
nanoseconds pushed past `10^9`), then the civil time minus the UTC offset
gives the instant. -/
def mkDateTime (year month day hour minute second nano : Nat) (offSec : Int) :
    Option ChronoDateTime :=
  if 1 ≤ month ∧ month ≤ 12 ∧ 1 ≤ day ∧ day ≤ daysInMonth year month ∧
      hour ≤ 23 ∧ minute ≤ 59 ∧ second ≤ 60 then
    let sec' : Nat := if second = 60 then 59 else second
    let nano' : Nat := nano + (if second = 60 then 1000000000 else 0)
    some ⟨daysFromCivil year month day * 86400 +
      ((hour * 3600 + minute * 60 + sec' : Nat) : Int) - offSec, nano'⟩
  else none

/-- Read exactly `n` ASCII digits into a decimal value. -/
def readFixedNatAux (acc : Nat) : Nat → List Char → Option (Nat × List Char)
  | 0, cs => some (acc, cs)
  | _ + 1, [] => none
  | n + 1, c :: cs =>
    if c.isDigit then readFixedNatAux (acc * 10 + digitVal c) n cs else none

def readFixedNat (n : Nat) (cs : List Char) : Option (Nat × List Char) :=
  readFixedNatAux 0 n cs

def expectChar (c : Char) : List Char → Option (List Char)
  | [] => none
  | c' :: cs => if c' = c then some cs else none

/-- Nanoseconds from fraction digits: the first nine digits, right-padded
to nine (further digits are consumed but ignored, as in chrono's scanner). -/
def nanoOfFracDigits (ds : List Char) : Nat :=
  let first9 := ds.take 9
  digitsToNat first9 * 10 ^ (9 - first9.length)

/-- Optional `.digits+` fraction. -/
def readFraction : List Char → Option (Nat × List Char)
  | '.' :: cs =>
    let spanned := cs.span (fun c => c.isDigit)
    if spanned.1 = [] then none else some (nanoOfFracDigits spanned.1, spanned.2)
  | cs => some (0, cs)

/-- UTC offset: `Z`/`z`, or `±HH:MM` with `HH ≤ 23`, `MM ≤ 59`; the result
is the offset in seconds east of UTC. -/
def readOffset : List Char → Option (Int × List Char)
  | [] => none
  | c :: cs =>
    if c = 'Z' ∨ c = 'z' then some (0, cs)
    else if c = '+' ∨ c = '-' then
      match readFixedNat 2 cs with
      | none => none
      | some (hh, cs₁) =>
        match cs₁ with
        | ':' :: cs₂ =>
          match readFixedNat 2 cs₂ with
          | none => none
          | some (mm, cs₃) =>
            if hh ≤ 23 ∧ mm ≤ 59 then
              let secs : Int := hh * 3600 + mm * 60
              some (if c = '-' then -secs else secs, cs₃)
            else none
        | _ => none
    else none

/-- Model of `chrono::DateTime::parse_from_rfc3339`:
`YYYY-MM-DD` then a `T`/`t`/space separator, `HH:MM:SS` with an optional
fraction, and a mandatory offset; the whole string must be consumed. -/
def parse_from_rfc3339 (s : String) : Option ChronoDateTime := do
  let cs := s.data
  let (year, cs) ← readFixedNat 4 cs
  let cs ← expectChar '-' cs
  let (month, cs) ← readFixedNat 2 cs
  let cs ← expectChar '-' cs
  let (day, cs) ← readFixedNat 2 cs
  let cs ← (match cs with
            | c :: rest => if c = 'T' ∨ c = 't' ∨ c = ' ' then some rest else none
            | [] => none)
  let (hour, cs) ← readFixedNat 2 cs
  let cs ← expectChar ':' cs
  let (minute, cs) ← readFixedNat 2 cs
  let cs ← expectChar ':' cs
  let (second, cs) ← readFixedNat 2 cs
  let (nano, cs) ← readFraction cs
  let (offSec, cs) ← readOffset cs
  if cs = [] then mkDateTime year month day hour minute second nano offSec else none

/-- `influxdb::Timestamp` as used by `into_query`; the payload is a `u128`. -/
inductive Timestamp where
  | Nanoseconds (n : Nat)
  | Seconds (n : Nat)
deriving DecidableEq, Repr

/-- Two's-complement cast `as u128` of a signed 64-bit value. -/
def i64AsU128 (x : Int) : Nat := (x % (2 : Int) ^ 128).toNat

/-- The parts of `influxdb::WriteQuery` observable through this program:
`add_field` and `add_tag` append to the respective lists. -/
structure WriteQuery where
  timestamp : Timestamp
  measurement : String
  fields : List (String × F64)
  tags : List (String × String)
deriving DecidableEq, Repr

def WriteQuery.new (ts : Timestamp) (measurement : String) : WriteQuery :=
  ⟨ts, measurement, [], []⟩

def WriteQuery.add_field (q : WriteQuery) (k : String) (v : F64) : WriteQuery :=
  { q with fields := q.fields ++ [(k, v)] }

def WriteQuery.add_tag (q : WriteQuery) (k : String) (v : String) : WriteQuery :=
  { q with tags := q.tags ++ [(k, v)] }

/-- The classification loop of `into_query`: a value that parses as `f64`
becomes a numeric field, anything else becomes a tag with the raw value. -/
def addEntries (q : WriteQuery) : List (String × String) → WriteQuery
  | [] => q
  | (k, v) :: rest =>
    match rustParseF64 v with
    | some f => addEntries (q.add_field k f) rest
    | none => addEntries (q.add_tag k v) rest

/-- Model of `DynamicRecord::into_query` (`main.rs` lines 28-60).  `now` is
the value `chrono::Utc::now()` would return at conversion time, passed
explicitly; `utc_dt.timestamp_nanos_opt().unwrap_or(0) as u128` and the
`as u128` casts are modelled by `i64AsU128` and `Option.getD 0`. -/
def queryTimestamp (now : ChronoDateTime) (tsStr : String) : Timestamp :=
  match parse_from_rfc3339 tsStr with
  | some dt =>
    match timestamp_nanos_opt dt with
    | some nanos => Timestamp.Nanoseconds (i64AsU128 nanos)
    | none => Timestamp.Seconds (i64AsU128 dt.epochSec)
  | none => Timestamp.Nanoseconds (i64AsU128 ((timestamp_nanos_opt now).getD 0))

def into_query (now : ChronoDateTime) (r : DynamicRecord) (measurement : String) :
    WriteQuery :=
  addEntries (WriteQuery.new (queryTimestamp now r.timestamp) measurement) r.fields

/-- Truncation to a 32-bit word. -/
def w32 (x : Nat) : Nat := x % 2 ^ 32

/-- 32-bit right rotation (argument already below `2 ^ 32`). -/
def rotr32 (n x : Nat) : Nat := w32 ((x >>> n) ||| (x <<< (32 - n)))

def shaNot (x : Nat) : Nat := x ^^^ 0xffffffff

def shaCh (x y z : Nat) : Nat := (x &&& y) ^^^ (shaNot x &&& z)

def shaMaj (x y z : Nat) : Nat := (x &&& y) ^^^ (x &&& z) ^^^ (y &&& z)

def bigSigma0 (x : Nat) : Nat := rotr32 2 x ^^^ rotr32 13 x ^^^ rotr32 22 x

def bigSigma1 (x : Nat) : Nat := rotr32 6 x ^^^ rotr32 11 x ^^^ rotr32 25 x

def smallSigma0 (x : Nat) : Nat := rotr32 7 x ^^^ rotr32 18 x ^^^ (x >>> 3)

def smallSigma1 (x : Nat) : Nat := rotr32 17 x ^^^ rotr32 19 x ^^^ (x >>> 10)

/-- The FIPS 180-4 round constants (decimal form). -/
def sha256K : List Nat :=
  [1116352408, 1899447441, 3049323471, 3921009573, 961987163,
   1508970993, 2453635748, 2870763221, 3624381080, 310598401,
   607225278, 1426881987, 1925078388, 2162078206, 2614888103,
   3248222580, 3835390401, 4022224774, 264347078, 604807628,
   770255983, 1249150122, 1555081692, 1996064986, 2554220882,
   2821834349, 2952996808, 3210313671, 3336571891, 3584528711,
   113926993, 338241895, 666307205, 773529912, 1294757372,
   1396182291, 1695183700, 1986661051, 2177026350, 2456956037,
   2730485921, 2820302411, 3259730800, 3345764771, 3516065817,
   3600352804, 4094571909, 275423344, 430227734, 506948616,
   659060556, 883997877, 958139571, 1322822218, 1537002063,
   1747873779, 1955562222, 2024104815, 2227730452, 2361852424,
   2428436474, 2756734187, 3204031479, 3329325298]

/-- The eight 32-bit working variables of the compression function. -/
structure Sha256State where
  a : Nat
  b : Nat
  c : Nat
  d : Nat
  e : Nat
  f : Nat
  g : Nat
  h : Nat
deriving DecidableEq, Repr

def sha256Init : Sha256State :=
  ⟨1779033703, 3144134277, 1013904242, 2773480762,
   1359893119, 2600822924, 528734635, 1541459225⟩

/-- One compression round, consuming one `(constant, schedule-word)` pair. -/
def shaRound (s : Sha256State) (kw : Nat × Nat) : Sha256State :=
  let t1 := w32 (s.h + bigSigma1 s.e + shaCh s.e s.f s.g + kw.1 + kw.2)
  let t2 := w32 (bigSigma0 s.a + shaMaj s.a s.b s.c)
  ⟨w32 (t1 + t2), s.a, s.b, s.c, w32 (s.d + t1), s.e, s.f, s.g⟩

/-- Append the next message-schedule word. -/
def scheduleStep (ws : List Nat) : List Nat :=
  let i := ws.length
  let wm16 := ws.getD (i - 16) 0
  let wm15 := ws.getD (i - 15) 0
  let wm7 := ws.getD (i - 7) 0
  let wm2 := ws.getD (i - 2) 0
  ws ++ [w32 (wm16 + smallSigma0 wm15 + wm7 + smallSigma1 wm2)]

def buildSchedule (ws : List Nat) : Nat → List Nat
  | 0 => ws
  | n + 1 => scheduleStep (buildSchedule ws n)

/-- Compress one 16-word block into the running state. -/
def compressBlock (s : Sha256State) (block : List Nat) : Sha256State :=
  let ws := buildSchedule block 48
  let t := (List.zip sha256K ws).foldl shaRound s
  ⟨w32 (s.a + t.a), w32 (s.b + t.b), w32 (s.c + t.c), w32 (s.d + t.d),
   w32 (s.e + t.e), w32 (s.f + t.f), w32 (s.g + t.g), w32 (s.h + t.h)⟩

/-- Big-endian words from a byte stream (four bytes at a time). -/
def bytesToWords : List Nat → List Nat
  | b0 :: b1 :: b2 :: b3 :: rest =>
    (b0 * 2 ^ 24 + b1 * 2 ^ 16 + b2 * 2 ^ 8 + b3) :: bytesToWords rest
  | _ => []

/-- Split a byte stream into 64-byte blocks. -/
def chunksAux : Nat → List Nat → List (List Nat)
  | _, [] => []
  | 0, _ :: _ => []
  | fuel + 1, b :: rest => (b :: rest).take 64 :: chunksAux fuel ((b :: rest).drop 64)

def chunks64 (l : List Nat) : List (List Nat) := chunksAux l.length l

/-- Big-endian bytes of a value, fixed width. -/
def toBytesBE : Nat → Nat → List Nat
  | 0, _ => []
  | n + 1, v => toBytesBE n (v / 256) ++ [v % 256]

/-- FIPS 180-4 padding: `0x80`, zeros to 56 mod 64, then the bit length as
eight big-endian bytes. -/
def sha256Pad (msg : List Nat) : List Nat :=
  let len := msg.length
  let zeros := (64 - (len + 9) % 64) % 64
  msg ++ [0x80] ++ List.replicate zeros 0 ++ toBytesBE 8 (8 * len)

def wordToBytes (x : Nat) : List Nat :=
  [(x >>> 24) % 256, (x >>> 16) % 256, (x >>> 8) % 256, x % 256]

/-- SHA-256 of a byte stream, as computed by the `sha2` crate: the 32-byte
digest. -/
def sha256Bytes (msg : List Nat) : List Nat :=
  let s := (chunks64 (sha256Pad msg)).foldl
    (fun st blk => compressBlock st (bytesToWords blk)) sha256Init
  wordToBytes s.a ++ wordToBytes s.b ++ wordToBytes s.c ++ wordToBytes s.d ++
    wordToBytes s.e ++ wordToBytes s.f ++ wordToBytes s.g ++ wordToBytes s.h

def hexDigitChar (n : Nat) : Char :=
  if n < 10 then Char.ofNat ('0'.toNat + n) else Char.ofNat ('a'.toNat + (n - 10))

def byteToHexChars (b : Nat) : List Char := [hexDigitChar (b / 16), hexDigitChar (b % 16)]

/-- Rust `format!` with the lowercase-hex formatter on a digest: every byte
as two lowercase hex digits. -/
def bytesToHexLower (bs : List Nat) : String := ⟨(bs.map byteToHexChars).flatten⟩

/-- Model of `calculate_file_hash` (`main.rs` lines 485-495).  `fsRead`
models `File::open` plus `read_to_end`: the byte content of the file at a
path, or an I/O error; the `?` operators propagate that error. -/
def calculate_file_hash (fsRead : String → Except String (List Nat)) (path : String) :
    Except String String :=
  match fsRead path with
  | .error e => .error e
  | .ok bytes => .ok (bytesToHexLower (sha256Bytes bytes))

/-- JSON values, the shape of the persisted cache snapshot. -/
inductive Json where
  | null
  | bool (b : Bool)
  | num (n : Int)
  | str (s : String)
  | arr (xs : List Json)
  | obj (kvs : List (String × Json))

def getStr (kvs : List (String × Json)) (k : String) : Option String :=
  match hmLookup kvs k with
  | some (.str s) => some s
  | _ => none

def getNat (kvs : List (String × Json)) (k : String) : Option Nat :=
  match hmLookup kvs k with
  | some (.num n) => if 0 ≤ n then some n.toNat else none
  | _ => none

/-- serde deserialization of `FileMetadata`: all four fields must be present
with the right primitive types (`last_processed` is kept as its RFC3339
serialization). -/
def decodeMetadata (j : Json) : Option FileMetadata :=
  match j with
  | .obj kvs => do
    let p ← getStr kvs "path"
    let hs ← getStr kvs "hash"
    let lp ← getStr kvs "last_processed"
    let rc ← getNat kvs "records_count"
    some ⟨p, hs, lp, rc⟩
  | _ => none

/-- serde deserialization of `HashMap<String, FileMetadata>`: entries are
inserted one by one (a duplicate key keeps the later value). -/
def decodeEntries (acc : List (String × FileMetadata)) :
    List (String × Json) → Option (List (String × FileMetadata))
  | [] => some acc
  | (k, v) :: rest =>
    match decodeMetadata v with
    | some md => decodeEntries (hmInsert acc k md) rest
    | none => none

def decodeCacheMap (j : Json) : Option (List (String × FileMetadata)) :=
  match j with
  | .obj kvs => decodeEntries [] kvs
  | _ => none

def encodeMetadata (m : FileMetadata) : Json :=
  .obj [("path", .str m.path), ("hash", .str m.hash),
        ("last_processed", .str m.last_processed),
        ("records_count", .num m.records_count)]

/-- serde serialization of the cache mapping (`serde_json::to_writer_pretty`),
modelled at the JSON level. -/
def encodeCacheMap (m : List (String × FileMetadata)) : Json :=
  .obj (m.map fun p => (p.1, encodeMetadata p.2))

/-- Model of `load_cache` (`main.rs` lines 498-507): an absent file yields
the empty mapping; a present file is deserialized, and a file that does not
decode as a path-to-entry mapping yields an error (propagated by `?`). -/
def load_cache (file : Option Json) : Except String (List (String × FileMetadata)) :=
  match file with
  | none => .ok []
  | some j =>
    match decodeCacheMap j with
    | some m => .ok m
    | none => .error "malformed cache file"

/-- Model of `save_cache` (`main.rs` lines 510-515): `File::create`
truncates, so the new snapshot is exactly the encoding of the mapping; the
previous content is passed in only to make the full overwrite explicit. -/
def save_cache (_oldFile : Option Json) (m : List (String × FileMetadata)) : Json :=
  encodeCacheMap m

/-- The cache `main` starts with (`main.rs` line 147):
`load_cache(&args.cache_file).unwrap_or_default()` — a load error is
discarded and replaced by the empty mapping; startup has no abort path for
a cache error. -/
def mainStartupCache (file : Option Json) : List (String × FileMetadata) :=
  match load_cache file with
  | .ok m => m
  | .error _ => []

/-! Shared lemmas about the record-building loop and the conversion loop. -/

theorem processFields_timestamp_of_not_mem (headers cells : List String)
    (acc : DynamicRecord) (h : "timestamp" ∉ headers) :
    (processFields headers cells acc).timestamp = acc.timestamp := by
  induction headers generalizing cells acc with
  | nil => cases cells <;> rfl
  | cons hd tl ih =>
    cases cells with
    | nil => rfl
    | cons c cs =>
      have hhd : hd ≠ "timestamp" := fun hh => h (hh ▸ List.mem_cons_self _ _)
      have htl : "timestamp" ∉ tl := fun ht => h (List.mem_cons_of_mem _ ht)
      simp only [processFields, hhd, if_false]
      exact ih cs _ htl

theorem processFields_lookup_timestamp (headers cells : List String)
    (acc : DynamicRecord) (h : hmLookup acc.fields "timestamp" = none) :
    hmLookup (processFields headers cells acc).fields "timestamp" = none := by
  induction headers generalizing cells acc with
  | nil => cases cells <;> simpa using h
  | cons hd tl ih =>
    cases cells with
    | nil => simpa using h
    | cons c cs =>
      by_cases hhd : hd = "timestamp"
      · simp only [processFields, hhd, if_true]
        exact ih cs _ h
      · simp only [processFields, hhd, if_false]
        refine ih cs _ ?_
        simp [hmLookup_hmInsert, hhd, h]

theorem processFields_nodup (headers cells : List String) (acc : DynamicRecord)
    (h : (hmKeys acc.fields).Nodup) :
    (hmKeys (processFields headers cells acc).fields).Nodup := by
  induction headers generalizing cells acc with
  | nil => cases cells <;> simpa using h
  | cons hd tl ih =>
    cases cells with
    | nil => simpa using h
    | cons c cs =>
      by_cases hhd : hd = "timestamp"
      · simp only [processFields, hhd, if_true]
        exact ih cs _ h
      · simp only [processFields, hhd, if_false]
        exact ih cs _ (hmKeys_hmInsert_nodup _ _ _ h)

theorem getLast?_filter_cons (p : α) (l : List α) (q : α → Bool) :
    ((p :: l).filter q).getLast? =
      match (l.filter q).getLast? with
      | some x => some x
      | none => if q p then some p else none := by
  rw [List.filter_cons]
  by_cases hq : q p
  · rw [if_pos hq]
    cases hl : l.filter q with
    | nil => simp [hl, hq]
    | cons y ys =>
      rw [List.getLast?_cons_cons]
      cases hx : (y :: ys).getLast? with
      | none => simp at hx
      | some x => rfl
  · rw [if_neg hq]
    cases (l.filter q).getLast? with
    | none => simp [hq]
    | some x => rfl

theorem processFields_lookup (headers cells : List String) (acc : DynamicRecord)
    (name : String) (hname : name ≠ "timestamp") :
    hmLookup (processFields headers cells acc).fields name =
      match ((headers.zip cells).filter (fun p => p.1 = name)).getLast? with
      | some p => some p.2
      | none => hmLookup acc.fields name := by
  induction headers generalizing cells acc with
  | nil => cases cells <;> rfl
  | cons hd tl ih =>
    cases cells with
    | nil => rfl
    | cons c cs =>
      rw [List.zip_cons_cons, getLast?_filter_cons]
      by_cases hhd : hd = "timestamp"
      · simp only [processFields, hhd, if_true]
        rw [ih cs _]
        cases ((tl.zip cs).filter (fun p => p.1 = name)).getLast? with
        | some x => rfl
        | none => simp [hhd, Ne.symm hname]
      · simp only [processFields, hhd, if_false]
        rw [ih cs _]
        cases ((tl.zip cs).filter (fun p => p.1 = name)).getLast? with
        | some x => rfl
        | none =>
          simp only [hmLookup_hmInsert]
          by_cases hkn : hd = name <;> simp [hkn]

theorem parse_csv_dynamic_mem (headers : List String)
    (rows : List (Except String (List String))) (recs : List DynamicRecord)
    (h : parse_csv_dynamic headers rows = .ok recs) :
    ∀ r ∈ recs, r.timestamp ≠ "" ∧ ∃ cells, r = buildRecord headers cells := by
  induction rows generalizing recs with
  | nil =>
    simp only [parse_csv_dynamic] at h
    injection h with h2
    subst h2
    intro r hr
    simp at hr
  | cons row rest ih =>
    cases row with
    | error e => simp [parse_csv_dynamic] at h
    | ok cells =>
      simp only [parse_csv_dynamic] at h
      cases hrec : parse_csv_dynamic headers rest with
      | error e => rw [hrec] at h; exact absurd h (by simp)
      | ok restRecs =>
        rw [hrec] at h
        dsimp only at h
        by_cases hts : (buildRecord headers cells).timestamp = ""
        · rw [if_pos hts] at h
          injection h with h2
          subst h2
          exact ih restRecs hrec
        · rw [if_neg hts] at h
          injection h with h2
          subst h2
          intro r hr
          rcases List.mem_cons.mp hr with hr | hr
          · exact hr ▸ ⟨hts, cells, rfl⟩
          · exact ih restRecs hrec r hr

theorem parse_csv_dynamic_no_timestamp_col (headers : List String)
    (rows : List (Except String (List String))) (recs : List DynamicRecord)
    (hcol : "timestamp" ∉ headers) (h : parse_csv_dynamic headers rows = .ok recs) :
    recs = [] := by
  rw [List.eq_nil_iff_forall_not_mem]
  intro r hr
  obtain ⟨hts, cells, hcells⟩ := parse_csv_dynamic_mem headers rows recs h r hr
  apply hts
  rw [hcells]
  exact processFields_timestamp_of_not_mem headers cells _ hcol

theorem addEntries_fields (q : WriteQuery) (l : List (String × String)) :
    (addEntries q l).fields =
      q.fields ++ l.filterMap (fun p => (rustParseF64 p.2).map (fun f => (p.1, f))) := by
  induction l generalizing q with
  | nil => simp [addEntries]
  | cons hd tl ih =>
    obtain ⟨k, v⟩ := hd
    cases hf : rustParseF64 v <;>
      simp [addEntries, hf, ih, WriteQuery.add_field, WriteQuery.add_tag]

theorem addEntries_tags (q : WriteQuery) (l : List (String × String)) :
    (addEntries q l).tags = q.tags ++ l.filter (fun p => (rustParseF64 p.2).isNone) := by
  induction l generalizing q with
  | nil => simp [addEntries]
  | cons hd tl ih =>
    obtain ⟨k, v⟩ := hd
    cases hf : rustParseF64 v <;>
      simp [addEntries, hf, ih, WriteQuery.add_field, WriteQuery.add_tag]

theorem addEntries_timestamp (q : WriteQuery) (l : List (String × String)) :
    (addEntries q l).timestamp = q.timestamp := by
  induction l generalizing q with
  | nil => rfl
  | cons hd tl ih =>
    obtain ⟨k, v⟩ := hd
    cases hf : rustParseF64 v <;>
      simp [addEntries, hf, ih, WriteQuery.add_field, WriteQuery.add_tag]

theorem hmInsert_of_not_mem (m : List (String × α)) (k : String) (v : α)
    (h : k ∉ hmKeys m) : hmInsert m k v = m ++ [(k, v)] := by
  induction m with
  | nil => rfl
  | cons hd tl ih =>
    obtain ⟨k₀, v₀⟩ := hd
    rw [hmKeys_cons] at h
    have h₀ : k₀ ≠ k := fun hk => h (hk ▸ List.mem_cons_self _ _)
    have h₁ : k ∉ hmKeys tl := fun hk => h (List.mem_cons_of_mem _ hk)
    simp [hmInsert, h₀, ih h₁]

theorem decodeMetadata_encodeMetadata (md : FileMetadata) :
    decodeMetadata (encodeMetadata md) = some md := by
  simp [decodeMetadata, encodeMetadata, getStr, getNat, hmLookup]

theorem decodeEntries_encode (m acc : List (String × FileMetadata))
    (hnd : (hmKeys m).Nodup) (hdisj : ∀ k ∈ hmKeys m, k ∉ hmKeys acc) :
    decodeEntries acc (m.map fun p => (p.1, encodeMetadata p.2)) = some (acc ++ m) := by
  induction m generalizing acc with
  | nil => simp [decodeEntries]
  | cons hd tl ih =>
    obtain ⟨k, md⟩ := hd
    rw [hmKeys_cons] at hnd hdisj
    have hins : hmInsert acc k md = acc ++ [(k, md)] :=
      hmInsert_of_not_mem acc k md (hdisj k (List.mem_cons_self _ _))
    simp only [List.map_cons, decodeEntries, decodeMetadata_encodeMetadata, hins]
    rw [ih (acc ++ [(k, md)]) (List.Nodup.of_cons hnd) ?_]
    · simp
    · intro k' hk'
      have hkk : k' ≠ k := by
        rintro rfl
        exact (List.nodup_cons.mp hnd).1 hk'
      have hnacc : k' ∉ hmKeys acc := hdisj k' (List.mem_cons_of_mem _ hk')
      intro hmem
      have hsplit : k' ∈ hmKeys acc ++ [k] := by
        simpa [hmKeys, List.map_append] using hmem
      rcases List.mem_append.mp hsplit with hc | hc
      · exact hnacc hc
      · exact hkk (by simpa using hc)

theorem decodeEntries_nodup (kvs : List (String × Json))
    (acc m : List (String × FileMetadata)) (hacc : (hmKeys acc).Nodup)
    (h : decodeEntries acc kvs = some m) : (hmKeys m).Nodup := by
  induction kvs generalizing acc with
  | nil =>
    simp only [decodeEntries] at h
    injection h with h2
    subst h2
    exact hacc
  | cons hd tl ih =>
    obtain ⟨k, v⟩ := hd
    simp only [decodeEntries] at h
    cases hmd : decodeMetadata v with
    | none => rw [hmd] at h; exact absurd h (by simp)
    | some md =>
      rw [hmd] at h
      exact ih (hmInsert acc k md) (hmKeys_hmInsert_nodup _ _ _ hacc) h

theorem load_cache_nodup (file : Option Json) (m : List (String × FileMetadata))
    (h : load_cache file = .ok m) : (hmKeys m).Nodup := by
  cases file with
  | none =>
    simp only [load_cache] at h
    injection h with h2
    subst h2
    simp [hmKeys_nil]
  | some j =>
    simp only [load_cache] at h
    cases hdec : decodeCacheMap j with
    | none => rw [hdec] at h; exact absurd h (by simp)
    | some m' =>
      rw [hdec] at h
      injection h with h2
      subst h2
      cases j with
      | obj kvs => exact decodeEntries_nodup kvs [] m' (by simp [hmKeys_nil]) hdec
      | null => simp [decodeCacheMap] at hdec
      | bool b => simp [decodeCacheMap] at hdec
      | num n => simp [decodeCacheMap] at hdec
      | str s => simp [decodeCacheMap] at hdec
      | arr xs => simp [decodeCacheMap] at hdec

theorem decodeCacheMap_encodeCacheMap (m : List (String × FileMetadata))
    (hnd : (hmKeys m).Nodup) : decodeCacheMap (encodeCacheMap m) = some m := by
  simpa [decodeCacheMap, encodeCacheMap] using
    decodeEntries_encode m [] hnd (by simp [hmKeys_nil])

/-! Claim theorems. -/

/-- C1 counterexample: the cache file content `"oops"` is valid JSON that
cannot be decoded as a path-to-entry mapping; `load_cache` reports the
error, but `main` discards it with `unwrap_or_default()` and the run
proceeds with an empty cache instead of aborting. -/
theorem C1_counterexample :
    decodeCacheMap (Json.str "oops") = none ∧
    load_cache (some (Json.str "oops")) = .error "malformed cache file" ∧
    mainStartupCache (some (Json.str "oops")) = [] :=
  ⟨rfl, rfl, rfl⟩

/-- C1 (amended): if the cache file exists but its content cannot be decoded
as a valid path-to-entry mapping, the load error is silently discarded
(`unwrap_or_default`) and the pipeline proceeds with an empty cache;
startup does not abort. -/
theorem C1_cache_load_error_ignored (j : Json) (h : decodeCacheMap j = none) :
    load_cache (some j) = .error "malformed cache file" ∧
    mainStartupCache (some j) = [] := by
  constructor
  · simp [load_cache, h]
  · simp [mainStartupCache, load_cache, h]

theorem C1_cache_load_error_ignored_witness :
    load_cache (some (Json.bool true)) = .error "malformed cache file" ∧
    mainStartupCache (some (Json.bool true)) = [] :=
  C1_cache_load_error_ignored (Json.bool true) rfl

/-- C9: saving a freshly loaded cache is a semantic no-op — for every
persisted snapshot that `load_cache` accepts, the snapshot written by
`save_cache` decodes to exactly the same path-to-entry mapping, and the
written snapshot does not depend on the previous file content (full
overwrite, `File::create` truncates). -/
theorem C9_cache_roundtrip (file : Option Json) (m : List (String × FileMetadata))
    (h : load_cache file = .ok m) :
    decodeCacheMap (save_cache file m) = some m ∧
    load_cache (some (save_cache file m)) = .ok m ∧
    (∀ old₁ old₂ : Option Json, save_cache old₁ m = save_cache old₂ m) := by
  have hnd := load_cache_nodup file m h
  have hdec := decodeCacheMap_encodeCacheMap m hnd
  refine ⟨hdec, ?_, fun _ _ => rfl⟩
  simp [load_cache, save_cache, hdec]

theorem C9_cache_roundtrip_witness :
    decodeCacheMap
        (save_cache (some (encodeCacheMap [("a.csv", ⟨"a.csv", "ffff", "2024-01-01T00:00:00Z", 3⟩)]))
          [("a.csv", ⟨"a.csv", "ffff", "2024-01-01T00:00:00Z", 3⟩)])
      = some [("a.csv", ⟨"a.csv", "ffff", "2024-01-01T00:00:00Z", 3⟩)] ∧
    load_cache (some (save_cache
        (some (encodeCacheMap [("a.csv", ⟨"a.csv", "ffff", "2024-01-01T00:00:00Z", 3⟩)]))
        [("a.csv", ⟨"a.csv", "ffff", "2024-01-01T00:00:00Z", 3⟩)]))
      = .ok [("a.csv", ⟨"a.csv", "ffff", "2024-01-01T00:00:00Z", 3⟩)] :=
  have h := C9_cache_roundtrip
    (some (encodeCacheMap [("a.csv", ⟨"a.csv", "ffff", "2024-01-01T00:00:00Z", 3⟩)]))
    [("a.csv", ⟨"a.csv", "ffff", "2024-01-01T00:00:00Z", 3⟩)] rfl
  ⟨h.1, h.2.1⟩

theorem timestamp_nanos_opt_le (dt : ChronoDateTime) (v : Int)
    (h : timestamp_nanos_opt dt = some v) : i64Min ≤ v ∧ v ≤ i64Max := by
  simp only [timestamp_nanos_opt] at h
  split_ifs at h with h1 h2
  injection h with hv
  subst hv
  exact h2

theorem i64AsU128_of_nonneg (v : Int) (h0 : 0 ≤ v) (hlt : v < 2 ^ 128) :
    (i64AsU128 v : Int) = v := by
  rw [i64AsU128, Int.emod_eq_of_lt h0 hlt, Int.toNat_of_nonneg h0]

/-- C2: each `(name, value)` entry of a record's fields map is classified
independently — values that parse as `f64` become numeric fields with the
parsed value, all others become tags with the raw value — and on the record
`(timestamp "2024-01-01T00:00:00Z", fields cpu = "42.5", host = "node-1")`
the produced write has the numeric field `cpu = 42.5` and the tag
`host = node-1`. -/
theorem C2_field_classification (now : ChronoDateTime) (meas : String) (r : DynamicRecord) :
    (into_query now r meas).fields
        = r.fields.filterMap (fun p => (rustParseF64 p.2).map (fun f => (p.1, f))) ∧
    (into_query now r meas).tags
        = r.fields.filter (fun p => (rustParseF64 p.2).isNone) ∧
    (into_query ⟨0, 0⟩
        ⟨"2024-01-01T00:00:00Z", [("cpu", "42.5"), ("host", "node-1")]⟩ "stats").fields
        = [("cpu", F64.finite (85 / 2))] ∧
    (into_query ⟨0, 0⟩
        ⟨"2024-01-01T00:00:00Z", [("cpu", "42.5"), ("host", "node-1")]⟩ "stats").tags
        = [("host", "node-1")] := by
  refine ⟨?_, ?_, ?_, ?_⟩
  · rw [into_query, addEntries_fields]
    rfl
  · rw [into_query, addEntries_tags]
    rfl
  · have h : (85 / 2 : ℚ) = mkRat 85 2 := by
      rw [Rat.mkRat_eq_div]
      norm_num
    rw [h]
    decide
  · decide

/-- C3 counterexample: for the pre-epoch timestamp `1969-12-31T23:59:59Z`
the RFC3339 parse succeeds and the UTC nanosecond-epoch value is the
representable `-10^9`, but the write's timestamp payload is the
two's-complement wrap `2^128 - 10^9` (the `as u128` cast), which is not the
nanosecond-epoch value. -/
theorem C3_counterexample :
    parse_from_rfc3339 "1969-12-31T23:59:59Z" = some ⟨-1, 0⟩ ∧
    timestamp_nanos_opt (⟨-1, 0⟩ : ChronoDateTime) = some (-1000000000) ∧
    (into_query ⟨0, 0⟩ ⟨"1969-12-31T23:59:59Z", []⟩ "stats").timestamp
      = Timestamp.Nanoseconds 340282366920938463463374607430768211456 ∧
    ((340282366920938463463374607430768211456 : Int) ≠ -1000000000) :=
  ⟨by decide, by decide, by decide, by decide⟩

/-- C3 (amended): if the record's timestamp parses as RFC3339 and the UTC
nanosecond-epoch value is representable as `i64`, the write's timestamp is
that value reduced modulo `2^128` (equal to the value itself whenever it is
nonnegative); when not representable it falls back to the epoch seconds at
second precision (same cast); if the parse fails, the write's timestamp is
the current wall-clock time at nanosecond precision, and in every case the
record is still converted to a write. -/
theorem C3_timestamp_normalization (now : ChronoDateTime) (meas : String)
    (r : DynamicRecord) :
    (∀ dt, parse_from_rfc3339 r.timestamp = some dt →
      (∀ v, timestamp_nanos_opt dt = some v →
        (into_query now r meas).timestamp = Timestamp.Nanoseconds (i64AsU128 v) ∧
          (0 ≤ v → (i64AsU128 v : Int) = v)) ∧
      (timestamp_nanos_opt dt = none →
        (into_query now r meas).timestamp = Timestamp.Seconds (i64AsU128 dt.epochSec))) ∧
    (parse_from_rfc3339 r.timestamp = none →
      (into_query now r meas).timestamp
        = Timestamp.Nanoseconds (i64AsU128 ((timestamp_nanos_opt now).getD 0))) := by
  have hts : (into_query now r meas).timestamp = queryTimestamp now r.timestamp := by
    rw [into_query, addEntries_timestamp]
    rfl
  constructor
  · intro dt hdt
    constructor
    · intro v hv
      refine ⟨?_, ?_⟩
      · simp [hts, queryTimestamp, hdt, hv]
      · intro h0
        have hb := timestamp_nanos_opt_le dt v hv
        refine i64AsU128_of_nonneg v h0 (lt_of_le_of_lt hb.2 ?_)
        norm_num [i64Max]
    · intro hv
      simp [hts, queryTimestamp, hdt, hv]
  · intro hdt
    simp [hts, queryTimestamp, hdt]

theorem C3_timestamp_normalization_witness :
    (into_query ⟨0, 0⟩ ⟨"2024-01-01T00:00:00Z", []⟩ "stats").timestamp
      = Timestamp.Nanoseconds (i64AsU128 1704067200000000000) ∧
    (into_query ⟨0, 0⟩ ⟨"9999-12-31T23:59:59Z", []⟩ "stats").timestamp
      = Timestamp.Seconds (i64AsU128 253402300799) ∧
    (into_query ⟨1700000000, 5⟩ ⟨"not-a-date", []⟩ "stats").timestamp
      = Timestamp.Nanoseconds (i64AsU128 ((timestamp_nanos_opt ⟨1700000000, 5⟩).getD 0)) :=
  ⟨(((C3_timestamp_normalization ⟨0, 0⟩ "stats" ⟨"2024-01-01T00:00:00Z", []⟩).1
      ⟨1704067200, 0⟩ (by decide)).1 1704067200000000000 (by decide)).1,
   ((C3_timestamp_normalization ⟨0, 0⟩ "stats" ⟨"9999-12-31T23:59:59Z", []⟩).1
      ⟨253402300799, 0⟩ (by decide)).2 (by decide),
   (C3_timestamp_normalization ⟨1700000000, 5⟩ "stats" ⟨"not-a-date", []⟩).2 (by decide)⟩

/-- C4: a row whose resolved timestamp is empty (in particular every row of
a file without a `timestamp` column) is dropped inside the parser — every
record of every emitted batch has a nonempty timestamp, the
`records_processed` increment equals the number of records in the emitted
batches (so dropped rows are not counted), and with no `timestamp` column
every emitted batch is empty. -/
theorem C4_missing_timestamp_drop (pathStr : String) (hashResult : Except String String)
    (headers : List String) (rows : List (Except String (List String))) :
    (∀ batch ∈ (parserStep pathStr hashResult headers rows).emitted,
      ∀ r ∈ batch.1, r.timestamp ≠ "") ∧
    (parserStep pathStr hashResult headers rows).recordsProcessedDelta
      = ((parserStep pathStr hashResult headers rows).emitted.map (fun b => b.1.length)).sum ∧
    ("timestamp" ∉ headers →
      ∀ batch ∈ (parserStep pathStr hashResult headers rows).emitted, batch.1 = []) := by
  cases hashResult with
  | error e =>
    refine ⟨?_, rfl, ?_⟩ <;> simp [parserStep]
  | ok hsh =>
    cases hp : parse_csv_dynamic headers rows with
    | error e =>
      refine ⟨?_, ?_, ?_⟩ <;> simp [parserStep, hp]
    | ok recs =>
      refine ⟨?_, ?_, ?_⟩
      · intro batch hb r hr
        have hb' : batch = (recs, pathStr, hsh) := by
          simpa [parserStep, hp] using hb
        rw [hb'] at hr
        exact (parse_csv_dynamic_mem headers rows recs hp r hr).1
      · simp [parserStep, hp]
      · intro hcol batch hb
        have hb' : batch = (recs, pathStr, hsh) := by
          simpa [parserStep, hp] using hb
        rw [hb']
        exact parse_csv_dynamic_no_timestamp_col headers rows recs hcol hp

theorem C4_missing_timestamp_drop_witness :
    ((⟨"t1", [("cpu", "2")]⟩ : DynamicRecord).timestamp ≠ "") ∧
    (parserStep "a.csv" (.ok "h") ["timestamp", "cpu"]
        [.ok ["", "1"], .ok ["t1", "2"]]).recordsProcessedDelta
      = ((parserStep "a.csv" (.ok "h") ["timestamp", "cpu"]
          [.ok ["", "1"], .ok ["t1", "2"]]).emitted.map (fun b => b.1.length)).sum :=
  have h := C4_missing_timestamp_drop "a.csv" (.ok "h") ["timestamp", "cpu"]
    [.ok ["", "1"], .ok ["t1", "2"]]
  ⟨h.1 ([⟨"t1", [("cpu", "2")]⟩], "a.csv", "h") (by decide) ⟨"t1", [("cpu", "2")]⟩ (by decide),
   h.2.1⟩

/-- C5: with the force flag clear, the scanner skips a discovered file
(incrementing `files_skipped`, not enqueuing) exactly when a cache entry
exists for its path and the freshly recomputed fingerprint equals the
cached one; with the force flag set every discovered file is enqueued
regardless of the cache and the fingerprint. -/
theorem C5_scanner_skip_iff (force : Bool) (cache : List (String × FileMetadata))
    (pathStr : String) (hashResult : Except String String) :
    (force = false →
      ((scannerStep force cache pathStr hashResult).action = ScanAction.skip ↔
        ∃ md, hmLookup cache pathStr = some md ∧ hashResult = .ok md.hash)) ∧
    (force = true →
      (scannerStep force cache pathStr hashResult).action = ScanAction.enqueue) ∧
    (scannerStep force cache pathStr hashResult).filesSkippedDelta
      = (if (scannerStep force cache pathStr hashResult).action = ScanAction.skip
          then 1 else 0) ∧
    (scannerStep force cache pathStr hashResult).filesFoundDelta = 1 := by
  refine ⟨?_, ?_, ?_, ?_⟩
  · rintro rfl
    constructor
    · intro hskip
      cases hl : hmLookup cache pathStr with
      | none => simp [scannerStep, hl] at hskip
      | some md =>
        cases hr : hashResult with
        | error e => simp [scannerStep, hl, hr] at hskip
        | ok hsh =>
          by_cases heq : hsh = md.hash
          · exact ⟨md, rfl, by rw [heq]⟩
          · simp [scannerStep, hl, hr, heq] at hskip
    · rintro ⟨md, hmd, hh⟩
      simp [scannerStep, hmd, hh]
  · rintro rfl
    simp [scannerStep]
  · cases force with
    | true => simp [scannerStep]
    | false =>
      cases hl : hmLookup cache pathStr with
      | none => simp [scannerStep, hl]
      | some md =>
        cases hashResult with
        | error e => simp [scannerStep, hl]
        | ok hsh => by_cases heq : hsh = md.hash <;> simp [scannerStep, hl, heq]
  · cases force with
    | true => simp [scannerStep]
    | false =>
      cases hl : hmLookup cache pathStr with
      | none => simp [scannerStep, hl]
      | some md =>
        cases hashResult with
        | error e => simp [scannerStep, hl]
        | ok hsh => by_cases heq : hsh = md.hash <;> simp [scannerStep, hl, heq]

theorem C5_scanner_skip_iff_witness :
    (scannerStep false [("a.csv", ⟨"a.csv", "abcd", "2024-01-01T00:00:00Z", 1⟩)]
        "a.csv" (.ok "abcd")).action = ScanAction.skip ∧
    (scannerStep true [("a.csv", ⟨"a.csv", "abcd", "2024-01-01T00:00:00Z", 1⟩)]
        "a.csv" (.ok "abcd")).action = ScanAction.enqueue :=
  have h := C5_scanner_skip_iff false
    [("a.csv", ⟨"a.csv", "abcd", "2024-01-01T00:00:00Z", 1⟩)] "a.csv" (.ok "abcd")
  have h₂ := C5_scanner_skip_iff true
    [("a.csv", ⟨"a.csv", "abcd", "2024-01-01T00:00:00Z", 1⟩)] "a.csv" (.ok "abcd")
  ⟨(h.1 rfl).mpr ⟨⟨"a.csv", "abcd", "2024-01-01T00:00:00Z", 1⟩, rfl, rfl⟩, h₂.2.1 rfl⟩

/-- C6: when the scanner finds a cache entry for a discovered file but
recomputing its fingerprint fails with any error, the file is not skipped —
it falls through to processing and is enqueued as if it had changed. -/
theorem C6_hash_error_enqueues (cache : List (String × FileMetadata))
    (pathStr e : String) (md : FileMetadata)
    (hmd : hmLookup cache pathStr = some md) :
    (scannerStep false cache pathStr (.error e)).action = ScanAction.enqueue ∧
    (scannerStep false cache pathStr (.error e)).filesSkippedDelta = 0 := by
  constructor <;> simp [scannerStep, hmd]

theorem C6_hash_error_enqueues_witness :
    (scannerStep false [("a.csv", ⟨"a.csv", "abcd", "2024-01-01T00:00:00Z", 1⟩)]
        "a.csv" (.error "io error")).action = ScanAction.enqueue ∧
    (scannerStep false [("a.csv", ⟨"a.csv", "abcd", "2024-01-01T00:00:00Z", 1⟩)]
        "a.csv" (.error "io error")).filesSkippedDelta = 0 :=
  C6_hash_error_enqueues [("a.csv", ⟨"a.csv", "abcd", "2024-01-01T00:00:00Z", 1⟩)]
    "a.csv" "io error" ⟨"a.csv", "abcd", "2024-01-01T00:00:00Z", 1⟩ rfl

/-- C7: within one parsed row, the value stored under a column name is the
value of the last occurrence of that name among the header/cell pairs
(last-value-wins on duplicate headers), and the resulting fields map holds
exactly one value per column name (its keys are unique). -/
theorem C7_duplicate_header_last_wins (headers cells : List String) (name : String)
    (hname : name ≠ "timestamp") :
    hmLookup (buildRecord headers cells).fields name
      = (((headers.zip cells).filter (fun p => p.1 = name)).getLast?).map Prod.snd ∧
    (hmKeys (buildRecord headers cells).fields).Nodup := by
  constructor
  · rw [buildRecord, processFields_lookup headers cells _ name hname]
    cases ((headers.zip cells).filter (fun p => p.1 = name)).getLast? with
    | none => rfl
    | some p => rfl
  · exact processFields_nodup headers cells _ (by simp [hmKeys_nil])

theorem C7_duplicate_header_last_wins_witness :
    hmLookup (buildRecord ["timestamp", "x", "x"] ["t", "1", "2"]).fields "x"
      = ((((["timestamp", "x", "x"].zip ["t", "1", "2"]).filter
          (fun p => p.1 = "x")).getLast?).map Prod.snd) ∧
    (hmKeys (buildRecord ["timestamp", "x", "x"] ["t", "1", "2"]).fields).Nodup :=
  C7_duplicate_header_last_wins ["timestamp", "x", "x"] ["t", "1", "2"] "x" (by decide)

theorem wordToBytes_lt (x : Nat) : ∀ b ∈ wordToBytes x, b < 256 := by
  intro b hb
  simp only [wordToBytes, List.mem_cons, List.not_mem_nil, or_false] at hb
  rcases hb with rfl | rfl | rfl | rfl <;> exact Nat.mod_lt _ (by norm_num)

theorem sha256Bytes_length (msg : List Nat) : (sha256Bytes msg).length = 32 := by
  simp [sha256Bytes, wordToBytes]

theorem sha256Bytes_lt (msg : List Nat) : ∀ b ∈ sha256Bytes msg, b < 256 := by
  intro b hb
  simp only [sha256Bytes, List.mem_append] at hb
  rcases hb with ((((((h | h) | h) | h) | h) | h) | h) | h <;> exact wordToBytes_lt _ b h

theorem bytesToHexLower_data (bs : List Nat) :
    (bytesToHexLower bs).data = (bs.map byteToHexChars).flatten := rfl

theorem bytesToHexLower_length (bs : List Nat) :
    (bytesToHexLower bs).length = 2 * bs.length := by
  show ((bs.map byteToHexChars).flatten).length = 2 * bs.length
  induction bs with
  | nil => rfl
  | cons hd tl ih =>
    simp only [List.map_cons, List.flatten_cons, List.length_append, ih,
      byteToHexChars, List.length_cons, List.length_nil, List.length_map]
    omega

theorem hexDigitChar_mem (n : Nat) (h : n < 16) :
    hexDigitChar n ∈ "0123456789abcdef".data := by
  interval_cases n <;> decide

theorem byteToHexChars_mem (b : Nat) (hb : b < 256) :
    ∀ c ∈ byteToHexChars b, c ∈ "0123456789abcdef".data := by
  intro c hc
  simp only [byteToHexChars, List.mem_cons, List.not_mem_nil, or_false] at hc
  rcases hc with rfl | rfl
  · exact hexDigitChar_mem _ (by omega)
  · exact hexDigitChar_mem _ (Nat.mod_lt _ (by norm_num))

/-- C8: the content fingerprint of a readable file is the lowercase
hexadecimal encoding of the 256-bit SHA-256 digest of the file's entire
byte content (64 lowercase hex characters for the 32 digest bytes), the
same byte content always yields the same fingerprint, and the operation
fails exactly when reading the file fails. -/
theorem C8_fingerprint_sha256 (fsRead : String → Except String (List Nat))
    (path : String) :
    (∀ e, calculate_file_hash fsRead path = .error e ↔ fsRead path = .error e) ∧
    (∀ bytes, fsRead path = .ok bytes →
      calculate_file_hash fsRead path = .ok (bytesToHexLower (sha256Bytes bytes)) ∧
      (sha256Bytes bytes).length = 32 ∧
      (∀ b ∈ sha256Bytes bytes, b < 256) ∧
      (bytesToHexLower (sha256Bytes bytes)).length = 64 ∧
      (∀ c ∈ (bytesToHexLower (sha256Bytes bytes)).data, c ∈ "0123456789abcdef".data) ∧
      (∀ fs₂ p₂, fs₂ p₂ = .ok bytes →
        calculate_file_hash fs₂ p₂ = calculate_file_hash fsRead path)) := by
  constructor
  · intro e
    cases hf : fsRead path with
    | error e₀ => simp [calculate_file_hash, hf]
    | ok bytes => simp [calculate_file_hash, hf]
  · intro bytes hf
    refine ⟨by simp [calculate_file_hash, hf], sha256Bytes_length bytes,
      sha256Bytes_lt bytes, ?_, ?_, ?_⟩
    · rw [bytesToHexLower_length, sha256Bytes_length]
    · intro c hc
      rw [bytesToHexLower_data] at hc
      rcases List.mem_flatten.mp hc with ⟨l, hl, hcl⟩
      rcases List.mem_map.mp hl with ⟨b, hb, rfl⟩
      exact byteToHexChars_mem b (sha256Bytes_lt bytes b hb) c hcl
    · intro fs₂ p₂ h₂
      simp [calculate_file_hash, hf, h₂]

theorem C8_fingerprint_sha256_witness :
    calculate_file_hash (fun _ => .ok []) "data.csv"
      = .ok "e3b0c44298fc1c149afbf4c8996fb92427ae41e4649b934ca495991b7852b855" ∧
    (bytesToHexLower (sha256Bytes [])).length = 64 :=
  have h := (C8_fingerprint_sha256 (fun _ => .ok []) "data.csv").2 [] rfl
  ⟨h.1.trans (congrArg Except.ok (by decide)), h.2.2.2.1⟩

/-- C10: every record produced by a successful decode has a fields mapping
with no `timestamp` key — a column literally named `timestamp` is routed
only into the record's timestamp slot — and a nonempty timestamp string. -/
theorem C10_no_timestamp_key (headers : List String)
    (rows : List (Except String (List String))) (recs : List DynamicRecord)
    (h : parse_csv_dynamic headers rows = .ok recs) :
    ∀ r ∈ recs, hmLookup r.fields "timestamp" = none ∧ r.timestamp ≠ "" := by
  intro r hr
  obtain ⟨hts, cells, rfl⟩ := parse_csv_dynamic_mem headers rows recs h r hr
  exact ⟨processFields_lookup_timestamp headers cells _ rfl, hts⟩

theorem C10_no_timestamp_key_witness :
    hmLookup (⟨"t", [("cpu", "1")]⟩ : DynamicRecord).fields "timestamp" = none ∧
    (⟨"t", [("cpu", "1")]⟩ : DynamicRecord).timestamp ≠ "" :=
  C10_no_timestamp_key ["timestamp", "cpu"] [.ok ["t", "1"]]
    [⟨"t", [("cpu", "1")]⟩] rfl ⟨"t", [("cpu", "1")]⟩ (by decide)

end CursedStats
